import Mathlib

/-!
Shallow embedding of the PR daily-report scripts
(pr_all_repos_daily_snapshot.py, send_pr_report.py, pr_daily_report.py).

Timestamps are modelled as UTC instants in whole seconds (Int), which is the
precision the scripts parse ("%Y-%m-%dT%H:%M:%SZ").  Python float durations in
hours are modelled as rationals.  Python dicts (collections.defaultdict) are
modelled as insertion-ordered association lists, matching the insertion-order
iteration semantics of Python dicts.
-/

/-- Model of Python str.lower as used on review states and label names:
the character-wise lowercase map. -/
def pyLower (s : String) : String := ⟨s.data.map Char.toLower⟩

/-- One review record: reviewer login and state string, in submission order
within its list. -/
structure Review where
  reviewer : String
  state : String
deriving DecidableEq

/-- One pull-request record as consumed by the scripts. -/
structure PullRequest where
  number : Nat
  author : String
  created_at : Int
  merged_at : Option Int
  labels : List String
deriving DecidableEq

/-- The data retrievable for one repository: its open and closed PR lists and
the reviews of each PR number (get_reviews, stable within a run). -/
structure RepoData where
  repoName : String
  openPRs : List PullRequest
  closedPRs : List PullRequest
  reviewsOf : Nat → List Review

/-- Lowercased state list: states = [r["state"].lower() for r in reviews]. -/
def statesOf (rs : List Review) : List String := rs.map (fun r => pyLower r.state)

/-- Snapshot-script predicate: "changes_requested" in states. -/
def changes_requested_any (rs : List Review) : Bool :=
  (statesOf rs).contains "changes_requested"

/-- Snapshot-script predicate: "approved" not in states. -/
def not_approved (rs : List Review) : Bool :=
  !((statesOf rs).contains "approved")

/-- pr_daily_report.is_changes_requested: scan reversed(reviews), return True
on the first review whose lowercased state is "changes_requested". -/
def is_changes_requested (rs : List Review) : Bool :=
  rs.reverse.any (fun r => pyLower r.state == "changes_requested")

/-- prs_raised_today: open + closed PRs with created_at >= today_start. -/
def prs_raised_today (ts : Int) (rd : RepoData) : List PullRequest :=
  (rd.openPRs ++ rd.closedPRs).filter (fun pr => decide (ts ≤ pr.created_at))

/-- prs_merged_today: closed PRs with a merged_at >= today_start. -/
def prs_merged_today (ts : Int) (rd : RepoData) : List PullRequest :=
  rd.closedPRs.filter (fun pr =>
    match pr.merged_at with
    | some m => decide (ts ≤ m)
    | none => false)

/-- Open PRs appended to prs_with_changes_requested in the snapshot scripts. -/
def prs_with_changes_requested (rd : RepoData) : List PullRequest :=
  rd.openPRs.filter (fun pr => changes_requested_any (rd.reviewsOf pr.number))

/-- Open PRs appended to prs_not_approved in the snapshot scripts. -/
def prs_not_approved (rd : RepoData) : List PullRequest :=
  rd.openPRs.filter (fun pr => not_approved (rd.reviewsOf pr.number))

/-- Label test: lbl["name"].lower() in ["hotfix", "critical"]. -/
def hotfix_label (l : String) : Bool :=
  pyLower l == "hotfix" || pyLower l == "critical"

/-- PRs carrying a hotfix or critical label. -/
def hotfix_prs (prs : List PullRequest) : List PullRequest :=
  prs.filter (fun pr => pr.labels.any hotfix_label)

/-- Open hotfix/critical PRs of a repository. -/
def prs_hotfix (rd : RepoData) : List PullRequest := hotfix_prs rd.openPRs

/-- Open PRs older than 24h with zero reviews. -/
def prs_pending_review (now : Int) (rd : RepoData) : List PullRequest :=
  rd.openPRs.filter (fun pr =>
    decide (86400 < now - pr.created_at) && (rd.reviewsOf pr.number).isEmpty)

/-- Count of open PRs older than 2 days (pr_stuck accumulation). -/
def stuck_count (now : Int) (rd : RepoData) : Nat :=
  (rd.openPRs.filter (fun pr => decide (172800 < now - pr.created_at))).length

/-- Count of open PRs labelled pending-release. -/
def pending_release_count (rd : RepoData) : Nat :=
  (rd.openPRs.filter (fun pr =>
    pr.labels.any (fun l => pyLower l == "pending-release"))).length

/-- Earliest created_at among the open PRs of this repository, if any
(min(open_prs, key=created_at)). -/
def repo_oldest (rd : RepoData) : Option Int :=
  (rd.openPRs.map (fun pr => pr.created_at)).min?

/-- Review-cycle durations in hours: (merged_at - created_at)/3600 for each
merged PR in the list. -/
def cycle_hours (prs : List PullRequest) : List ℚ :=
  prs.filterMap (fun pr =>
    pr.merged_at.map (fun m => ((m - pr.created_at : ℤ) : ℚ) / 3600))

/-- Per-member counters of one repository row (defaultdict value). -/
structure Stats where
  raised : Nat
  merged : Nat
  changes_requested : Nat
  not_approved : Nat
  reviews_done : Nat
deriving DecidableEq

/-- The defaultdict default: all counters zero. -/
def Stats.init : Stats := ⟨0, 0, 0, 0, 0⟩

/-- Association-list lookup by login. -/
def alookup {β : Type} (m : List (String × β)) (u : String) : Option β :=
  match m with
  | [] => none
  | (v, b) :: rest => if v = u then some b else alookup rest u

/-- defaultdict update members[u] = f members[u], inserting the default first
when the key is absent (insertion order preserved). -/
def bump (f : Stats → Stats) (m : List (String × Stats)) (u : String) :
    List (String × Stats) :=
  match m with
  | [] => [(u, f Stats.init)]
  | (v, s) :: rest => if v = u then (v, f s) :: rest else (v, s) :: bump f rest u

/-- defaultdict(int) increment reviews_done_map[u] += 1. -/
def bumpNat (m : List (String × Nat)) (u : String) : List (String × Nat) :=
  match m with
  | [] => [(u, 1)]
  | (v, c) :: rest => if v = u then (v, c + 1) :: rest else (v, c) :: bumpNat rest u

def incrRaised (s : Stats) : Stats := { s with raised := s.raised + 1 }

def incrMerged (s : Stats) : Stats := { s with merged := s.merged + 1 }

def incrCR (s : Stats) : Stats := { s with changes_requested := s.changes_requested + 1 }

def incrNA (s : Stats) : Stats := { s with not_approved := s.not_approved + 1 }

def setRD (c : Nat) (s : Stats) : Stats := { s with reviews_done := c }

/-- pr_ids_to_check = [pr["number"] for pr in prs_raised_today + prs_merged_today];
note the concatenation keeps a PR that is both raised and merged today twice. -/
def pr_ids_to_check (ts : Int) (rd : RepoData) : List Nat :=
  (prs_raised_today ts rd ++ prs_merged_today ts rd).map (fun pr => pr.number)

/-- reviews_done_map: for each id in pr_ids_to_check, fetch reviews and count
one per review for its reviewer login. -/
def reviews_done_map (ts : Int) (rd : RepoData) : List (String × Nat) :=
  (pr_ids_to_check ts rd).foldl
    (fun m n => (rd.reviewsOf n).foldl (fun m2 r => bumpNat m2 r.reviewer) m) []

/-- The per-repository members defaultdict after all five accumulation loops
of the snapshot scripts. -/
def membersMap (ts : Int) (rd : RepoData) : List (String × Stats) :=
  let m1 := (prs_raised_today ts rd).foldl (fun m pr => bump incrRaised m pr.author) []
  let m2 := (prs_merged_today ts rd).foldl (fun m pr => bump incrMerged m pr.author) m1
  let m3 := (prs_with_changes_requested rd).foldl (fun m pr => bump incrCR m pr.author) m2
  let m4 := (prs_not_approved rd).foldl (fun m pr => bump incrNA m pr.author) m3
  (reviews_done_map ts rd).foldl (fun m uc => bump (setRD uc.2) m uc.1) m4

/-- One rendered member row (Member, counters, RepoName). -/
structure MemberStat where
  member : String
  raised : Nat
  merged : Nat
  changes_requested : Nat
  not_approved : Nat
  reviews_done : Nat
  repoName : String
deriving DecidableEq

/-- The member rows appended for one repository. -/
def member_rows_of (ts : Int) (rd : RepoData) : List MemberStat :=
  (membersMap ts rd).map (fun us =>
    { member := us.1
    , raised := us.2.raised
    , merged := us.2.merged
    , changes_requested := us.2.changes_requested
    , not_approved := us.2.not_approved
    , reviews_done := us.2.reviews_done
    , repoName := rd.repoName })

/-- Per-repository aggregate: the contribution of one successfully fetched
repository to the run-wide accumulators. -/
structure RepoAgg where
  total_raised : Nat
  total_merged : Nat
  total_changes_requested : Nat
  total_not_approved : Nat
  total_hotfix : Nat
  total_pending_24h : Nat
  pr_stuck : Nat
  pending_release : Nat
  oldest_open_date : Option Int
  review_cycle_times : List ℚ
  member_rows : List MemberStat
deriving DecidableEq

/-- The aggregate contributed by one repository in the snapshot main loop. -/
def processRepo (now ts : Int) (rd : RepoData) : RepoAgg :=
  { total_raised := (prs_raised_today ts rd).length
  , total_merged := (prs_merged_today ts rd).length
  , total_changes_requested := (prs_with_changes_requested rd).length
  , total_not_approved := (prs_not_approved rd).length
  , total_hotfix := (prs_hotfix rd).length
  , total_pending_24h := (prs_pending_review now rd).length
  , pr_stuck := stuck_count now rd
  , pending_release := pending_release_count rd
  , oldest_open_date := repo_oldest rd
  , review_cycle_times := cycle_hours (prs_merged_today ts rd)
  , member_rows := member_rows_of ts rd }

/-- Minimum of two optional oldest-open dates (the running update
"if oldest is None or repo_oldest < oldest"). -/
def omin (a b : Option Int) : Option Int :=
  match a, b with
  | none, b => b
  | some x, none => some x
  | some x, some y => some (min x y)

/-- Fold step of the main loop: add the contribution of one repository to the
running accumulators. -/
def combineAgg (a b : RepoAgg) : RepoAgg :=
  { total_raised := a.total_raised + b.total_raised
  , total_merged := a.total_merged + b.total_merged
  , total_changes_requested := a.total_changes_requested + b.total_changes_requested
  , total_not_approved := a.total_not_approved + b.total_not_approved
  , total_hotfix := a.total_hotfix + b.total_hotfix
  , total_pending_24h := a.total_pending_24h + b.total_pending_24h
  , pr_stuck := a.pr_stuck + b.pr_stuck
  , pending_release := a.pending_release + b.pending_release
  , oldest_open_date := omin a.oldest_open_date b.oldest_open_date
  , review_cycle_times := a.review_cycle_times ++ b.review_cycle_times
  , member_rows := a.member_rows ++ b.member_rows }

/-- The accumulators before the main loop starts. -/
def emptyAgg : RepoAgg :=
  { total_raised := 0
  , total_merged := 0
  , total_changes_requested := 0
  , total_not_approved := 0
  , total_hotfix := 0
  , total_pending_24h := 0
  , pr_stuck := 0
  , pending_release := 0
  , oldest_open_date := none
  , review_cycle_times := []
  , member_rows := [] }

/-- Cross-repository reduction: fold the per-repository aggregates in order. -/
def reduceAggs (l : List RepoAgg) : RepoAgg := l.foldl combineAgg emptyAgg

/-- One full aggregation run: a none entry is a repository whose PR retrieval
failed (the except-continue branch); it is skipped. -/
def runSnapshot (now ts : Int) (repos : List (Option RepoData)) : RepoAgg :=
  reduceAggs ((repos.filterMap id).map (processRepo now ts))

/-- Python-set insertion, determinised to insertion order. -/
def insertIfAbsent (l : List String) (u : String) : List String :=
  if u ∈ l then l else l ++ [u]

/-- The stale_pr_owners set accumulated by the second pass of the snapshot
scripts: authors of open PRs older than 7 days, failed repos skipped. -/
def stale_set (now : Int) (repos : List (Option RepoData)) : List String :=
  repos.foldl
    (fun acc o =>
      match o with
      | none => acc
      | some rd =>
          rd.openPRs.foldl
            (fun a pr =>
              if 604800 < now - pr.created_at then insertIfAbsent a pr.author else a)
            acc)
    []

/-- Python sorted on strings (code-point lexicographic). -/
def sortStrings (l : List String) : List String := List.insertionSort (· ≤ ·) l

/-- owners_stale_prs = ", ".join(sorted(stale_pr_owners)) if stale_pr_owners else "-". -/
def owners_stale_prs (now : Int) (repos : List (Option RepoData)) : String :=
  let s := stale_set now repos
  if s.isEmpty then "-" else String.intercalate ", " (sortStrings s)

/-- Python max(member_rows, key=raised): first row attaining the maximum. -/
def maxByRaised (rows : List MemberStat) : Option MemberStat :=
  rows.foldl
    (fun acc r =>
      match acc with
      | none => some r
      | some m => if m.raised < r.raised then some r else some m)
    none

/-- Python max(member_rows, key=reviews_done): first row attaining the maximum. -/
def maxByReviews (rows : List MemberStat) : Option MemberStat :=
  rows.foldl
    (fun acc r =>
      match acc with
      | none => some r
      | some m => if m.reviews_done < r.reviews_done then some r else some m)
    none

/-- The Quick Insights block of the multi-repo snapshot scripts. -/
structure Insights where
  most_active : String
  review_heavy : String
  stale_owners : String
  blocker_owners : String
deriving DecidableEq

/-- Quick insights as assembled by pr_all_repos_daily_snapshot.py and
send_pr_report.py; blocker_owners is the literal constant "-" there. -/
def quickInsights (now ts : Int) (repos : List (Option RepoData)) : Insights :=
  let rows := (runSnapshot now ts repos).member_rows
  { most_active :=
      match maxByRaised rows with
      | some m => m.member
      | none => "-"
  , review_heavy :=
      match maxByReviews rows with
      | some m => m.member
      | none => "-"
  , stale_owners := owners_stale_prs now repos
  , blocker_owners := "-" }

/-- pr_daily_report.py blocker_owners:
", ".join(set(pr author for pr in prs_hotfix)) or "-", with the Python set
determinised to insertion order; the or-fallback fires on the empty string. -/
def blocker_owners_report (open_prs : List PullRequest) : String :=
  let s := (hotfix_prs open_prs).foldl (fun a pr => insertIfAbsent a pr.author) []
  let j := String.intercalate ", " s
  if j = "" then "-" else j

/-- Python round(x, 2) modelled over the rationals. -/
def round2 (q : ℚ) : ℚ := ((round (q * 100) : ℤ) : ℚ) / 100

/-- Loop body of pr_daily_report.average_review_time: a merged PR adds its
merged_at - created_at seconds to the running total and bumps the count. -/
def art_step (acc : ℚ × Nat) (pr : PullRequest) : ℚ × Nat :=
  match pr.merged_at with
  | some m => (acc.1 + ((m - pr.created_at : ℤ) : ℚ), acc.2 + 1)
  | none => acc

/-- pr_daily_report.average_review_time: accumulate total seconds and count
over the merged PRs, return 0 when the count is 0 (the division is never
reached), else the mean in hours rounded to two decimals. -/
def average_review_time (prs : List PullRequest) : ℚ :=
  let tc := prs.foldl art_step ((0 : ℚ), (0 : Nat))
  if tc.2 = 0 then 0 else round2 (tc.1 / 3600 / (tc.2 : ℚ))

/-- Snapshot-script average: round(sum(times)/len(times), 2) if times else 0. -/
def avg_review_time_snapshot (ts : List ℚ) : ℚ :=
  if ts.isEmpty then 0 else round2 (ts.sum / (ts.length : ℚ))

/-- Spec-side map update keeping, per reviewer, only the last review seen. -/
def setKeyReview (m : List (String × Review)) (u : String) (r : Review) :
    List (String × Review) :=
  match m with
  | [] => [(u, r)]
  | (v, s) :: rest => if v = u then (v, r) :: rest else (v, s) :: setKeyReview rest u r

/-- Spec-side: group reviews by reviewer and keep only the chronologically
last review of each reviewer (list order is submission order). -/
def latestPerReviewer (rs : List Review) : List (String × Review) :=
  rs.foldl (fun m r => setKeyReview m r.reviewer r) []

/-- Spec-side classification: some reviewer has latest review changes_requested. -/
def spec_changes_requested (rs : List Review) : Bool :=
  (latestPerReviewer rs).any (fun p => pyLower p.2.state == "changes_requested")

/-- Spec-side classification: no reviewer has latest review state approved. -/
def spec_not_approved (rs : List Review) : Bool :=
  !((latestPerReviewer rs).any (fun p => pyLower p.2.state == "approved"))

/-- Claim-side reviews_done: reviews by a login counted over each distinct
raised-today-or-merged-today PR once. -/
def reviews_done_claim (ts : Int) (rd : RepoData) (u : String) : Nat :=
  ((pr_ids_to_check ts rd).dedup.map
    (fun n => ((rd.reviewsOf n).filter (fun r => r.reviewer == u)).length)).sum

/-- Code-side reviews_done of a login: the final map entry, defaulting to 0. -/
def reviews_done_of (ts : Int) (rd : RepoData) (u : String) : Nat :=
  (alookup (reviews_done_map ts rd) u).getD 0

/-- pr_daily_report.py reviews_done_map: iterate recent_prs, the first
fetched page of PRs of every state and age, fetch the reviews of each and
count one per review for its reviewer login. -/
def reviews_done_map_report (recent_prs : List PullRequest)
    (reviewsOf : Nat → List Review) : List (String × Nat) :=
  recent_prs.foldl
    (fun m pr => (reviewsOf pr.number).foldl (fun m2 r => bumpNat m2 r.reviewer) m) []

/-- pr_daily_report.py reviews_done of a login: the final map entry,
defaulting to 0. -/
def reviews_done_report (recent_prs : List PullRequest)
    (reviewsOf : Nat → List Review) (u : String) : Nat :=
  (alookup (reviews_done_map_report recent_prs reviewsOf) u).getD 0

/-- Spec-side stale authors: authors of stale open PRs over the successfully
fetched repositories, in traversal order, with duplicates. -/
def stale_authors_spec (now : Int) (repos : List (Option RepoData)) : List String :=
  (repos.filterMap id).flatMap
    (fun rd =>
      (rd.openPRs.filter (fun pr => decide (604800 < now - pr.created_at))).map
        (fun pr => pr.author))

/-- Spec-side stale_pr_owners: sorted, de-duplicated stale authors joined with
", ", or "-" when there are none. -/
def stale_owners_spec (now : Int) (repos : List (Option RepoData)) : String :=
  let l := (stale_authors_spec now repos).dedup
  if l.isEmpty then "-" else String.intercalate ", " (sortStrings l)

/-- Sum of one counter over a members map. -/
def sumBy (g : Stats → Nat) (m : List (String × Stats)) : Nat :=
  (m.map (fun us => g us.2)).sum

/-- A reviewer whose changes_requested is followed by their own later approval. -/
def exC1 : List Review := [⟨"alice", "changes_requested"⟩, ⟨"alice", "approved"⟩]

/-- A reviewer whose approval is followed by their own later changes_requested. -/
def exC2 : List Review := [⟨"alice", "approved"⟩, ⟨"alice", "changes_requested"⟩]

/-- A repository with one PR created and merged inside the window, reviewed
once by bob. -/
def exRepoC5 : RepoData :=
  { repoName := "r"
  , openPRs := []
  , closedPRs := [{ number := 1, author := "alice", created_at := 1000,
                    merged_at := some 2000, labels := [] }]
  , reviewsOf := fun n => if n = 1 then [⟨"bob", "APPROVED"⟩] else [] }

/-- A single open hotfix-labelled PR authored by alice. -/
def exOpenC8 : List PullRequest :=
  [{ number := 1, author := "alice", created_at := 0, merged_at := none,
     labels := ["hotfix"] }]

/-- A small concrete aggregate. -/
def aggA : RepoAgg := { emptyAgg with total_raised := 1, oldest_open_date := some 5 }

/-- Another small concrete aggregate. -/
def aggB : RepoAgg :=
  { emptyAgg with total_raised := 2, total_merged := 3, oldest_open_date := some 2 }
/-- C1 counterexample: under the code, a stale changes_requested outvotes the
later approval by the same reviewer, contradicting latest-review-per-reviewer. -/
theorem claim_c1_counterexample :
    is_changes_requested exC1 = true ∧ changes_requested_any exC1 = true ∧
      spec_changes_requested exC1 = false := by decide

/-- C1 (amended): changes_requested is true iff at least one review in the
list, of any age, has state changes_requested; the reverse-scan implementation
and the state-list membership implementation agree. -/
theorem claim_c1_amended (rs : List Review) :
    is_changes_requested rs = changes_requested_any rs ∧
      (is_changes_requested rs = true ↔
        ∃ r ∈ rs, pyLower r.state = "changes_requested") := by
  constructor
  · rw [Bool.eq_iff_iff]
    simp [is_changes_requested, changes_requested_any, statesOf,
      List.contains_eq_any_beq, List.any_eq_true, beq_iff_eq]
  · simp [is_changes_requested, List.any_eq_true, beq_iff_eq]

/-- C1 amended, instantiated at a concrete review list. -/
theorem claim_c1_amended_witness :
    is_changes_requested exC2 = changes_requested_any exC2 :=
  (claim_c1_amended exC2).1

/-- C2 counterexample: under the code, any old approval makes not_approved
false even when the latest review of that reviewer is changes_requested. -/
theorem claim_c2_counterexample :
    not_approved exC2 = false ∧ spec_not_approved exC2 = true := by decide

/-- C2 (amended): not_approved is true iff no review in the list, of any age,
has state approved; a PR with zero reviews is not_approved and not
changes_requested. -/
theorem claim_c2_amended (rs : List Review) :
    (not_approved rs = true ↔ ∀ r ∈ rs, pyLower r.state ≠ "approved") ∧
      not_approved [] = true ∧ is_changes_requested [] = false ∧
      changes_requested_any [] = false := by
  refine ⟨?_, by decide, by decide, by decide⟩
  simp [not_approved, statesOf, List.contains_eq_any_beq, List.any_eq_true,
    beq_iff_eq]

/-- C2 amended, instantiated at a concrete review list. -/
theorem claim_c2_amended_witness :
    not_approved [] = true ↔ ∀ r ∈ ([] : List Review), pyLower r.state ≠ "approved" :=
  (claim_c2_amended []).1

/-- C8 counterexample: pr_daily_report.py derives blocker_owners from hotfix
PR authors, so on a run with a hotfix PR it is not the sentinel. -/
theorem claim_c8_counterexample :
    blocker_owners_report exOpenC8 = "alice" ∧ blocker_owners_report exOpenC8 ≠ "-" := by
  decide

/-- C8 (amended): in the two multi-repo scripts the blocker_owners insight is
the constant sentinel for every input; pr_daily_report.py instead computes it
from hotfix PR authors. -/
theorem claim_c8_amended (now ts : Int) (repos : List (Option RepoData)) :
    (quickInsights now ts repos).blocker_owners = "-" := rfl

/-- C4: a repository whose PR retrieval failed is skipped: it contributes
nothing to any total, no member rows, nothing to oldest-open tracking, and
nothing to the stale-owner pass; the run result is exactly that of the
successful repositories. -/
theorem claim_c4 (now ts : Int) (l1 l2 : List (Option RepoData)) :
    runSnapshot now ts (l1 ++ none :: l2) = runSnapshot now ts (l1 ++ l2) ∧
      owners_stale_prs now (l1 ++ none :: l2) = owners_stale_prs now (l1 ++ l2) := by
  constructor
  · simp [runSnapshot, List.filterMap_append, List.filterMap_cons]
  · simp [owners_stale_prs, stale_set, List.foldl_append]
/-- The seconds-and-count accumulator of average_review_time computes 3600
times the sum of the hour durations and their number. -/
theorem avg_fold_eq (prs : List PullRequest) :
    ∀ (t0 : ℚ) (c0 : Nat),
      prs.foldl art_step (t0, c0)
        = (t0 + (cycle_hours prs).sum * 3600, c0 + (cycle_hours prs).length) := by
  induction prs with
  | nil => intro t0 c0; simp [cycle_hours]
  | cons pr rest ih =>
      intro t0 c0
      rw [List.foldl_cons]
      cases hm : pr.merged_at with
      | none =>
          rw [show art_step (t0, c0) pr = (t0, c0) from by simp [art_step, hm]]
          rw [ih t0 c0]
          simp [cycle_hours, List.filterMap_cons, hm]
      | some m =>
          rw [show art_step (t0, c0) pr
              = (t0 + ((m - pr.created_at : ℤ) : ℚ), c0 + 1) from by simp [art_step, hm]]
          rw [ih]
          simp only [cycle_hours, List.filterMap_cons, hm, Option.map_some']
          simp only [Prod.mk.injEq, List.sum_cons, List.length_cons]
          constructor
          · rw [add_mul, div_mul_cancel₀]
            · ring
            · norm_num
          · omega

/-- C7: average_review_time equals the snapshot-script average of the pooled
hour durations: the rounded mean when at least one PR merged, and 0 via the
guard (the division branch is not taken) when none did; the snapshot
accumulator pools exactly the merged-today durations. -/
theorem claim_c7 (prs : List PullRequest) (now ts : Int) (rd : RepoData) :
    average_review_time prs = avg_review_time_snapshot (cycle_hours prs) ∧
      avg_review_time_snapshot [] = 0 ∧
      (processRepo now ts rd).review_cycle_times = cycle_hours (prs_merged_today ts rd) := by
  refine ⟨?_, rfl, rfl⟩
  unfold average_review_time avg_review_time_snapshot
  rw [avg_fold_eq prs 0 0]
  simp only [zero_add, Nat.zero_add]
  by_cases h : (cycle_hours prs).length = 0
  · have hnil : cycle_hours prs = [] := List.length_eq_zero.mp h
    simp [hnil]
  · have hne : (cycle_hours prs).isEmpty = false := by
      cases hcyc : cycle_hours prs with
      | nil => exact absurd (by simp [hcyc]) h
      | cons a t => simp
    rw [if_neg h, hne]
    simp only [Bool.false_eq_true, if_false]
    congr 1
    rw [mul_div_cancel_right₀ _ (by norm_num : (3600 : ℚ) ≠ 0)]
/-- A bump whose updater increments the projected counter raises the map sum
by one. -/
theorem sumBy_bump_incr (g : Stats → Nat) (f : Stats → Stats)
    (hf : ∀ s, g (f s) = g s + 1) (h0 : g Stats.init = 0)
    (m : List (String × Stats)) (u : String) :
    sumBy g (bump f m u) = sumBy g m + 1 := by
  induction m with
  | nil => simp [bump, sumBy, hf, h0]
  | cons p rest ih =>
      obtain ⟨v, s⟩ := p
      by_cases h : v = u
      · simp [bump, h, sumBy, hf]
        omega
      · simp [bump, h, sumBy] at *
        omega

/-- A bump whose updater leaves the projected counter unchanged leaves the
map sum unchanged. -/
theorem sumBy_bump_pres (g : Stats → Nat) (f : Stats → Stats)
    (hf : ∀ s, g (f s) = g s) (h0 : g Stats.init = 0)
    (m : List (String × Stats)) (u : String) :
    sumBy g (bump f m u) = sumBy g m := by
  induction m with
  | nil => simp [bump, sumBy, hf, h0]
  | cons p rest ih =>
      obtain ⟨v, s⟩ := p
      by_cases h : v = u
      · simp [bump, h, sumBy, hf]
      · simp [bump, h, sumBy] at *
        omega

/-- Folding counter-incrementing bumps over a list adds the length of the list to
the map sum. -/
theorem sumBy_foldl_incr {α : Type} (g : Stats → Nat)
    (step : List (String × Stats) → α → List (String × Stats))
    (F : α → Stats → Stats) (key : α → String)
    (hstep : ∀ acc x, step acc x = bump (F x) acc (key x))
    (hf : ∀ x s, g (F x s) = g s + 1) (h0 : g Stats.init = 0) :
    ∀ (l : List α) (m : List (String × Stats)),
      sumBy g (l.foldl step m) = sumBy g m + l.length := by
  intro l
  induction l with
  | nil => intro m; simp
  | cons x rest ih =>
      intro m
      rw [List.foldl_cons, hstep, ih, sumBy_bump_incr g (F x) (hf x) h0]
      simp [Nat.add_comm, Nat.add_assoc, Nat.add_left_comm]

/-- Folding counter-preserving bumps over a list leaves the map sum unchanged. -/
theorem sumBy_foldl_pres {α : Type} (g : Stats → Nat)
    (step : List (String × Stats) → α → List (String × Stats))
    (F : α → Stats → Stats) (key : α → String)
    (hstep : ∀ acc x, step acc x = bump (F x) acc (key x))
    (hf : ∀ x s, g (F x s) = g s) (h0 : g Stats.init = 0) :
    ∀ (l : List α) (m : List (String × Stats)),
      sumBy g (l.foldl step m) = sumBy g m := by
  intro l
  induction l with
  | nil => intro m; simp
  | cons x rest ih =>
      intro m
      rw [List.foldl_cons, hstep, ih, sumBy_bump_pres g (F x) (hf x) h0]

/-- The raised counters of the members map of one repository add up to the number
of PRs raised today. -/
theorem sumBy_membersMap_raised (ts : Int) (rd : RepoData) :
    sumBy (fun s => s.raised) (membersMap ts rd) = (prs_raised_today ts rd).length := by
  simp only [membersMap]
  rw [sumBy_foldl_pres (fun s => s.raised) (fun m (uc : String × Nat) => bump (setRD uc.2) m uc.1)
    (fun (uc : String × Nat) => setRD uc.2) (fun (uc : String × Nat) => uc.1)
    (fun _ _ => rfl) (fun _ _ => rfl) rfl]
  rw [sumBy_foldl_pres (fun s => s.raised) (fun m (pr : PullRequest) => bump incrNA m pr.author)
    (fun _ => incrNA) (fun (pr : PullRequest) => pr.author) (fun _ _ => rfl) (fun _ _ => rfl) rfl]
  rw [sumBy_foldl_pres (fun s => s.raised) (fun m (pr : PullRequest) => bump incrCR m pr.author)
    (fun _ => incrCR) (fun (pr : PullRequest) => pr.author) (fun _ _ => rfl) (fun _ _ => rfl) rfl]
  rw [sumBy_foldl_pres (fun s => s.raised) (fun m (pr : PullRequest) => bump incrMerged m pr.author)
    (fun _ => incrMerged) (fun (pr : PullRequest) => pr.author) (fun _ _ => rfl) (fun _ _ => rfl) rfl]
  rw [sumBy_foldl_incr (fun s => s.raised) (fun m (pr : PullRequest) => bump incrRaised m pr.author)
    (fun _ => incrRaised) (fun (pr : PullRequest) => pr.author) (fun _ _ => rfl) (fun _ _ => rfl) rfl]
  simp [sumBy]

/-- The merged counters of the members map of one repository add up to the number
of PRs merged today. -/
theorem sumBy_membersMap_merged (ts : Int) (rd : RepoData) :
    sumBy (fun s => s.merged) (membersMap ts rd) = (prs_merged_today ts rd).length := by
  simp only [membersMap]
  rw [sumBy_foldl_pres (fun s => s.merged) (fun m (uc : String × Nat) => bump (setRD uc.2) m uc.1)
    (fun (uc : String × Nat) => setRD uc.2) (fun (uc : String × Nat) => uc.1)
    (fun _ _ => rfl) (fun _ _ => rfl) rfl]
  rw [sumBy_foldl_pres (fun s => s.merged) (fun m (pr : PullRequest) => bump incrNA m pr.author)
    (fun _ => incrNA) (fun (pr : PullRequest) => pr.author) (fun _ _ => rfl) (fun _ _ => rfl) rfl]
  rw [sumBy_foldl_pres (fun s => s.merged) (fun m (pr : PullRequest) => bump incrCR m pr.author)
    (fun _ => incrCR) (fun (pr : PullRequest) => pr.author) (fun _ _ => rfl) (fun _ _ => rfl) rfl]
  rw [sumBy_foldl_incr (fun s => s.merged) (fun m (pr : PullRequest) => bump incrMerged m pr.author)
    (fun _ => incrMerged) (fun (pr : PullRequest) => pr.author) (fun _ _ => rfl) (fun _ _ => rfl) rfl]
  rw [sumBy_foldl_pres (fun s => s.merged) (fun m (pr : PullRequest) => bump incrRaised m pr.author)
    (fun _ => incrRaised) (fun (pr : PullRequest) => pr.author) (fun _ _ => rfl) (fun _ _ => rfl) rfl]
  simp [sumBy]

/-- The changes_requested counters of the members map of one repository add up to
the number of its changes-requested PRs. -/
theorem sumBy_membersMap_cr (ts : Int) (rd : RepoData) :
    sumBy (fun s => s.changes_requested) (membersMap ts rd)
      = (prs_with_changes_requested rd).length := by
  simp only [membersMap]
  rw [sumBy_foldl_pres (fun s => s.changes_requested) (fun m (uc : String × Nat) => bump (setRD uc.2) m uc.1)
    (fun (uc : String × Nat) => setRD uc.2) (fun (uc : String × Nat) => uc.1)
    (fun _ _ => rfl) (fun _ _ => rfl) rfl]
  rw [sumBy_foldl_pres (fun s => s.changes_requested) (fun m (pr : PullRequest) => bump incrNA m pr.author)
    (fun _ => incrNA) (fun (pr : PullRequest) => pr.author) (fun _ _ => rfl) (fun _ _ => rfl) rfl]
  rw [sumBy_foldl_incr (fun s => s.changes_requested) (fun m (pr : PullRequest) => bump incrCR m pr.author)
    (fun _ => incrCR) (fun (pr : PullRequest) => pr.author) (fun _ _ => rfl) (fun _ _ => rfl) rfl]
  rw [sumBy_foldl_pres (fun s => s.changes_requested) (fun m (pr : PullRequest) => bump incrMerged m pr.author)
    (fun _ => incrMerged) (fun (pr : PullRequest) => pr.author) (fun _ _ => rfl) (fun _ _ => rfl) rfl]
  rw [sumBy_foldl_pres (fun s => s.changes_requested) (fun m (pr : PullRequest) => bump incrRaised m pr.author)
    (fun _ => incrRaised) (fun (pr : PullRequest) => pr.author) (fun _ _ => rfl) (fun _ _ => rfl) rfl]
  simp [sumBy]

/-- The not_approved counters of the members map of one repository add up to the
number of its not-approved PRs. -/
theorem sumBy_membersMap_na (ts : Int) (rd : RepoData) :
    sumBy (fun s => s.not_approved) (membersMap ts rd) = (prs_not_approved rd).length := by
  simp only [membersMap]
  rw [sumBy_foldl_pres (fun s => s.not_approved) (fun m (uc : String × Nat) => bump (setRD uc.2) m uc.1)
    (fun (uc : String × Nat) => setRD uc.2) (fun (uc : String × Nat) => uc.1)
    (fun _ _ => rfl) (fun _ _ => rfl) rfl]
  rw [sumBy_foldl_incr (fun s => s.not_approved) (fun m (pr : PullRequest) => bump incrNA m pr.author)
    (fun _ => incrNA) (fun (pr : PullRequest) => pr.author) (fun _ _ => rfl) (fun _ _ => rfl) rfl]
  rw [sumBy_foldl_pres (fun s => s.not_approved) (fun m (pr : PullRequest) => bump incrCR m pr.author)
    (fun _ => incrCR) (fun (pr : PullRequest) => pr.author) (fun _ _ => rfl) (fun _ _ => rfl) rfl]
  rw [sumBy_foldl_pres (fun s => s.not_approved) (fun m (pr : PullRequest) => bump incrMerged m pr.author)
    (fun _ => incrMerged) (fun (pr : PullRequest) => pr.author) (fun _ _ => rfl) (fun _ _ => rfl) rfl]
  rw [sumBy_foldl_pres (fun s => s.not_approved) (fun m (pr : PullRequest) => bump incrRaised m pr.author)
    (fun _ => incrRaised) (fun (pr : PullRequest) => pr.author) (fun _ _ => rfl) (fun _ _ => rfl) rfl]
  simp [sumBy]
/-- Folding combineAgg accumulates the raised totals additively. -/
theorem foldl_combine_raised (l : List RepoAgg) :
    ∀ a, (l.foldl combineAgg a).total_raised
      = a.total_raised + (l.map (fun x => x.total_raised)).sum := by
  induction l with
  | nil => intro a; simp
  | cons x rest ih => intro a; simp [List.foldl_cons, ih, combineAgg]; omega

/-- Folding combineAgg accumulates the merged totals additively. -/
theorem foldl_combine_merged (l : List RepoAgg) :
    ∀ a, (l.foldl combineAgg a).total_merged
      = a.total_merged + (l.map (fun x => x.total_merged)).sum := by
  induction l with
  | nil => intro a; simp
  | cons x rest ih => intro a; simp [List.foldl_cons, ih, combineAgg]; omega

/-- Folding combineAgg accumulates the changes-requested totals additively. -/
theorem foldl_combine_cr (l : List RepoAgg) :
    ∀ a, (l.foldl combineAgg a).total_changes_requested
      = a.total_changes_requested + (l.map (fun x => x.total_changes_requested)).sum := by
  induction l with
  | nil => intro a; simp
  | cons x rest ih => intro a; simp [List.foldl_cons, ih, combineAgg]; omega

/-- Folding combineAgg accumulates the not-approved totals additively. -/
theorem foldl_combine_na (l : List RepoAgg) :
    ∀ a, (l.foldl combineAgg a).total_not_approved
      = a.total_not_approved + (l.map (fun x => x.total_not_approved)).sum := by
  induction l with
  | nil => intro a; simp
  | cons x rest ih => intro a; simp [List.foldl_cons, ih, combineAgg]; omega

/-- Folding combineAgg accumulates the hotfix totals additively. -/
theorem foldl_combine_hotfix (l : List RepoAgg) :
    ∀ a, (l.foldl combineAgg a).total_hotfix
      = a.total_hotfix + (l.map (fun x => x.total_hotfix)).sum := by
  induction l with
  | nil => intro a; simp
  | cons x rest ih => intro a; simp [List.foldl_cons, ih, combineAgg]; omega

/-- Folding combineAgg accumulates the pending-review totals additively. -/
theorem foldl_combine_p24 (l : List RepoAgg) :
    ∀ a, (l.foldl combineAgg a).total_pending_24h
      = a.total_pending_24h + (l.map (fun x => x.total_pending_24h)).sum := by
  induction l with
  | nil => intro a; simp
  | cons x rest ih => intro a; simp [List.foldl_cons, ih, combineAgg]; omega

/-- Folding combineAgg accumulates the stuck counters additively. -/
theorem foldl_combine_stuck (l : List RepoAgg) :
    ∀ a, (l.foldl combineAgg a).pr_stuck
      = a.pr_stuck + (l.map (fun x => x.pr_stuck)).sum := by
  induction l with
  | nil => intro a; simp
  | cons x rest ih => intro a; simp [List.foldl_cons, ih, combineAgg]; omega

/-- Folding combineAgg accumulates the pending-release counters additively. -/
theorem foldl_combine_pr (l : List RepoAgg) :
    ∀ a, (l.foldl combineAgg a).pending_release
      = a.pending_release + (l.map (fun x => x.pending_release)).sum := by
  induction l with
  | nil => intro a; simp
  | cons x rest ih => intro a; simp [List.foldl_cons, ih, combineAgg]; omega

/-- Folding combineAgg concatenates the member rows in order. -/
theorem foldl_combine_rows (l : List RepoAgg) :
    ∀ a, (l.foldl combineAgg a).member_rows
      = a.member_rows ++ (l.map (fun x => x.member_rows)).flatten := by
  induction l with
  | nil => intro a; simp
  | cons x rest ih => intro a; simp [List.foldl_cons, ih, combineAgg]

/-- Folding combineAgg concatenates the review-cycle pools in order. -/
theorem foldl_combine_cycles (l : List RepoAgg) :
    ∀ a, (l.foldl combineAgg a).review_cycle_times
      = a.review_cycle_times ++ (l.map (fun x => x.review_cycle_times)).flatten := by
  induction l with
  | nil => intro a; simp
  | cons x rest ih => intro a; simp [List.foldl_cons, ih, combineAgg]

/-- Folding combineAgg takes the running minimum of the oldest-open dates. -/
theorem foldl_combine_oldest (l : List RepoAgg) :
    ∀ a, (l.foldl combineAgg a).oldest_open_date
      = (l.map (fun x => x.oldest_open_date)).foldl omin a.oldest_open_date := by
  induction l with
  | nil => intro a; simp
  | cons x rest ih => intro a; simp [List.foldl_cons, ih, combineAgg]

/-- C3: in every produced snapshot, the per-member raised counters sum to the
global raised total, and likewise for merged, changes-requested and
not-approved. -/
theorem claim_c3 (now ts : Int) (repos : List (Option RepoData)) :
    (((runSnapshot now ts repos).member_rows.map (fun r => r.raised)).sum
        = (runSnapshot now ts repos).total_raised) ∧
      (((runSnapshot now ts repos).member_rows.map (fun r => r.merged)).sum
        = (runSnapshot now ts repos).total_merged) ∧
      (((runSnapshot now ts repos).member_rows.map (fun r => r.changes_requested)).sum
        = (runSnapshot now ts repos).total_changes_requested) ∧
      (((runSnapshot now ts repos).member_rows.map (fun r => r.not_approved)).sum
        = (runSnapshot now ts repos).total_not_approved) := by
  have rows_eq : (runSnapshot now ts repos).member_rows
      = (((repos.filterMap id).map (processRepo now ts)).map
          (fun x => x.member_rows)).flatten := by
    unfold runSnapshot reduceAggs
    rw [foldl_combine_rows]
    simp [emptyAgg]
  have key : ∀ (g : MemberStat → Nat) (gs : Stats → Nat) (ga : RepoAgg → Nat),
      (∀ us : String × Stats, ∀ rn : String, g
          { member := us.1, raised := us.2.raised, merged := us.2.merged,
            changes_requested := us.2.changes_requested,
            not_approved := us.2.not_approved,
            reviews_done := us.2.reviews_done, repoName := rn } = gs us.2) →
      (∀ rd : RepoData, sumBy gs (membersMap ts rd) = ga (processRepo now ts rd)) →
      (((runSnapshot now ts repos).member_rows.map g).sum
        = (((repos.filterMap id).map (processRepo now ts)).map ga).sum) := by
    intro g gs ga hg hrepo
    rw [rows_eq, List.map_flatten, List.sum_flatten, List.map_map, List.map_map,
      List.map_map, List.map_map]
    congr 1
    apply List.map_congr_left
    intro rd _
    simp only [Function.comp]
    have : (processRepo now ts rd).member_rows = member_rows_of ts rd := rfl
    rw [this]
    unfold member_rows_of
    rw [List.map_map]
    have : ((membersMap ts rd).map
        ((fun r => g r) ∘ (fun us =>
          ({ member := us.1, raised := us.2.raised, merged := us.2.merged,
             changes_requested := us.2.changes_requested,
             not_approved := us.2.not_approved,
             reviews_done := us.2.reviews_done,
             repoName := rd.repoName } : MemberStat)))).sum
        = sumBy gs (membersMap ts rd) := by
      unfold sumBy
      congr 1
      apply List.map_congr_left
      intro us _
      exact hg us rd.repoName
    rw [this, hrepo rd]
  refine ⟨?_, ?_, ?_, ?_⟩
  · rw [key (fun r => r.raised) (fun s => s.raised) (fun a => a.total_raised)
      (fun _ _ => rfl) (fun rd => by rw [sumBy_membersMap_raised]; rfl)]
    unfold runSnapshot reduceAggs
    rw [foldl_combine_raised]
    simp [emptyAgg]
  · rw [key (fun r => r.merged) (fun s => s.merged) (fun a => a.total_merged)
      (fun _ _ => rfl) (fun rd => by rw [sumBy_membersMap_merged]; rfl)]
    unfold runSnapshot reduceAggs
    rw [foldl_combine_merged]
    simp [emptyAgg]
  · rw [key (fun r => r.changes_requested) (fun s => s.changes_requested)
      (fun a => a.total_changes_requested)
      (fun _ _ => rfl) (fun rd => by rw [sumBy_membersMap_cr]; rfl)]
    unfold runSnapshot reduceAggs
    rw [foldl_combine_cr]
    simp [emptyAgg]
  · rw [key (fun r => r.not_approved) (fun s => s.not_approved)
      (fun a => a.total_not_approved)
      (fun _ _ => rfl) (fun rd => by rw [sumBy_membersMap_na]; rfl)]
    unfold runSnapshot reduceAggs
    rw [foldl_combine_na]
    simp [emptyAgg]
/-- The optional minimum is commutative. -/
theorem omin_comm (a b : Option Int) : omin a b = omin b a := by
  cases a <;> cases b <;> simp [omin, min_comm]

/-- The optional minimum is associative. -/
theorem omin_assoc (a b c : Option Int) : omin (omin a b) c = omin a (omin b c) := by
  cases a <;> cases b <;> cases c <;> simp [omin, min_assoc]

/-- Folding the optional minimum is invariant under permutation. -/
theorem foldl_omin_perm {l1 l2 : List (Option Int)} (h : l1.Perm l2) :
    ∀ a, l1.foldl omin a = l2.foldl omin a := by
  induction h with
  | nil => intro a; rfl
  | cons x _ ih => intro a; simp [List.foldl_cons, ih]
  | swap x y _ =>
      intro a
      simp only [List.foldl_cons]
      rw [omin_assoc, omin_comm y x, ← omin_assoc]
  | trans _ _ ih1 ih2 => intro a; rw [ih1, ih2]

/-- combineAgg is associative. -/
theorem combineAgg_assoc (a b c : RepoAgg) :
    combineAgg (combineAgg a b) c = combineAgg a (combineAgg b c) := by
  simp [combineAgg, Nat.add_assoc, omin_assoc, List.append_assoc]

/-- emptyAgg is a left identity of combineAgg. -/
theorem combineAgg_empty_left (a : RepoAgg) : combineAgg emptyAgg a = a := by
  cases a with
  | mk r m cr na h p24 st pr old cyc rows =>
      simp [combineAgg, emptyAgg]
      cases old <;> simp [omin]

/-- emptyAgg is a right identity of combineAgg. -/
theorem combineAgg_empty_right (a : RepoAgg) : combineAgg a emptyAgg = a := by
  cases a with
  | mk r m cr na h p24 st pr old cyc rows =>
      simp [combineAgg, emptyAgg]
      cases old <;> simp [omin]

/-- Folding combineAgg from any seed factors through the seed. -/
theorem foldl_combine_factor (l : List RepoAgg) :
    ∀ x, l.foldl combineAgg x = combineAgg x (reduceAggs l) := by
  induction l with
  | nil => intro x; simp [reduceAggs, combineAgg_empty_right]
  | cons y rest ih =>
      intro x
      rw [List.foldl_cons, ih]
      have : reduceAggs (y :: rest) = combineAgg y (reduceAggs rest) := by
        unfold reduceAggs
        rw [List.foldl_cons, ih (combineAgg emptyAgg y), combineAgg_empty_left]
        rfl
      rw [this, combineAgg_assoc]

/-- Reduction distributes over list concatenation. -/
theorem reduceAggs_append (a b : List RepoAgg) :
    reduceAggs (a ++ b) = combineAgg (reduceAggs a) (reduceAggs b) := by
  unfold reduceAggs
  rw [List.foldl_append]
  exact foldl_combine_factor b (List.foldl combineAgg emptyAgg a)

/-- C6: the cross-repository reduction is commutative and associative: any
permutation of the per-repository aggregates yields the same eight global
totals and the same oldest-open minimum, and permutes the pooled
review-cycle durations; reducing a concatenation equals combining the
reductions of its parts. -/
theorem claim_c6 (l1 l2 a b : List RepoAgg) (h : l1.Perm l2) :
    (reduceAggs l1).total_raised = (reduceAggs l2).total_raised ∧
      (reduceAggs l1).total_merged = (reduceAggs l2).total_merged ∧
      (reduceAggs l1).total_changes_requested = (reduceAggs l2).total_changes_requested ∧
      (reduceAggs l1).total_not_approved = (reduceAggs l2).total_not_approved ∧
      (reduceAggs l1).total_hotfix = (reduceAggs l2).total_hotfix ∧
      (reduceAggs l1).total_pending_24h = (reduceAggs l2).total_pending_24h ∧
      (reduceAggs l1).pr_stuck = (reduceAggs l2).pr_stuck ∧
      (reduceAggs l1).pending_release = (reduceAggs l2).pending_release ∧
      (reduceAggs l1).oldest_open_date = (reduceAggs l2).oldest_open_date ∧
      (reduceAggs l1).review_cycle_times.Perm (reduceAggs l2).review_cycle_times ∧
      reduceAggs (a ++ b) = combineAgg (reduceAggs a) (reduceAggs b) := by
  refine ⟨?_, ?_, ?_, ?_, ?_, ?_, ?_, ?_, ?_, ?_, reduceAggs_append a b⟩
  · unfold reduceAggs
    rw [foldl_combine_raised, foldl_combine_raised]
    exact congrArg _ (List.Perm.sum_eq (h.map _))
  · unfold reduceAggs
    rw [foldl_combine_merged, foldl_combine_merged]
    exact congrArg _ (List.Perm.sum_eq (h.map _))
  · unfold reduceAggs
    rw [foldl_combine_cr, foldl_combine_cr]
    exact congrArg _ (List.Perm.sum_eq (h.map _))
  · unfold reduceAggs
    rw [foldl_combine_na, foldl_combine_na]
    exact congrArg _ (List.Perm.sum_eq (h.map _))
  · unfold reduceAggs
    rw [foldl_combine_hotfix, foldl_combine_hotfix]
    exact congrArg _ (List.Perm.sum_eq (h.map _))
  · unfold reduceAggs
    rw [foldl_combine_p24, foldl_combine_p24]
    exact congrArg _ (List.Perm.sum_eq (h.map _))
  · unfold reduceAggs
    rw [foldl_combine_stuck, foldl_combine_stuck]
    exact congrArg _ (List.Perm.sum_eq (h.map _))
  · unfold reduceAggs
    rw [foldl_combine_pr, foldl_combine_pr]
    exact congrArg _ (List.Perm.sum_eq (h.map _))
  · unfold reduceAggs
    rw [foldl_combine_oldest, foldl_combine_oldest]
    exact foldl_omin_perm (h.map _) _
  · unfold reduceAggs
    rw [foldl_combine_cycles, foldl_combine_cycles]
    simp only [emptyAgg, List.nil_append]
    exact (h.map _).flatten

/-- C6 instantiated: swapping two concrete aggregates changes no total, no
oldest-open minimum, and permutes the pooled durations; concatenation
reduces to the combination. -/
theorem claim_c6_witness :
    (reduceAggs [aggA, aggB]).total_raised = (reduceAggs [aggB, aggA]).total_raised ∧
      (reduceAggs [aggA, aggB]).total_merged = (reduceAggs [aggB, aggA]).total_merged ∧
      (reduceAggs [aggA, aggB]).total_changes_requested
        = (reduceAggs [aggB, aggA]).total_changes_requested ∧
      (reduceAggs [aggA, aggB]).total_not_approved
        = (reduceAggs [aggB, aggA]).total_not_approved ∧
      (reduceAggs [aggA, aggB]).total_hotfix = (reduceAggs [aggB, aggA]).total_hotfix ∧
      (reduceAggs [aggA, aggB]).total_pending_24h
        = (reduceAggs [aggB, aggA]).total_pending_24h ∧
      (reduceAggs [aggA, aggB]).pr_stuck = (reduceAggs [aggB, aggA]).pr_stuck ∧
      (reduceAggs [aggA, aggB]).pending_release
        = (reduceAggs [aggB, aggA]).pending_release ∧
      (reduceAggs [aggA, aggB]).oldest_open_date
        = (reduceAggs [aggB, aggA]).oldest_open_date ∧
      (reduceAggs [aggA, aggB]).review_cycle_times.Perm
        (reduceAggs [aggB, aggA]).review_cycle_times ∧
      reduceAggs ([aggA] ++ [aggB]) = combineAgg (reduceAggs [aggA]) (reduceAggs [aggB]) :=
  claim_c6 [aggA, aggB] [aggB, aggA] [aggA] [aggB] (by decide)
/-- A bumpNat increments exactly the defaulted count of the bumped login. -/
theorem alookup_bumpNat_getD (m : List (String × Nat)) (v u : String) :
    (alookup (bumpNat m v) u).getD 0
      = (alookup m u).getD 0 + (if v = u then 1 else 0) := by
  induction m with
  | nil => by_cases h : v = u <;> simp [bumpNat, alookup, h]
  | cons p rest ih =>
      obtain ⟨w, c⟩ := p
      by_cases hwv : w = v
      · subst hwv
        by_cases hwu : w = u <;> simp [bumpNat, alookup, hwu]
      · by_cases hwu : w = u
        · subst hwu
          have hvw : ¬v = w := fun he => hwv he.symm
          simp [bumpNat, hwv, alookup, hvw]
        · simp [bumpNat, hwv, alookup, hwu, ih]

/-- Folding bumpNat over a review list adds the review count of the login. -/
theorem alookup_revsfold_getD (rs : List Review) :
    ∀ (m : List (String × Nat)) (u : String),
      (alookup (rs.foldl (fun m2 r => bumpNat m2 r.reviewer) m) u).getD 0
        = (alookup m u).getD 0 + (rs.filter (fun r => r.reviewer == u)).length := by
  induction rs with
  | nil => intro m u; simp
  | cons r rest ih =>
      intro m u
      rw [List.foldl_cons, ih, alookup_bumpNat_getD]
      by_cases h : r.reviewer = u <;> simp [List.filter_cons, h, beq_iff_eq]
      omega

/-- Folding per-item review-count bumps accumulates, per login, the sum of
its review counts over the items. -/
theorem alookup_itemsfold_getD {α : Type} (getRevs : α → List Review) (u : String) :
    ∀ (l : List α) (m : List (String × Nat)),
      (alookup
          (l.foldl
            (fun m x => (getRevs x).foldl (fun m2 r => bumpNat m2 r.reviewer) m) m)
          u).getD 0
        = (alookup m u).getD 0
          + (l.map
              (fun x => ((getRevs x).filter (fun r => r.reviewer == u)).length)).sum := by
  intro l
  induction l with
  | nil => intro m; simp
  | cons x rest ih =>
      intro m
      rw [List.foldl_cons, ih, alookup_revsfold_getD]
      simp [List.sum_cons]
      omega

/-- C5 (amended): in the two snapshot scripts, the reviews_done of a login
equals its review count summed over the concatenated raised-today and
merged-today lists with multiplicity (a PR that is both raised and merged
today is counted twice, and no review on any other PR contributes there);
in pr_daily_report.py, reviews_done instead equals the review count of the
login over the fetched first page of PRs of every state and age. -/
theorem claim_c5_amended (ts : Int) (rd : RepoData) (u : String)
    (recent_prs : List PullRequest) (reviewsOf : Nat → List Review) :
    (reviews_done_of ts rd u
        = ((pr_ids_to_check ts rd).map
            (fun n => ((rd.reviewsOf n).filter (fun r => r.reviewer == u)).length)).sum) ∧
      (reviews_done_report recent_prs reviewsOf u
        = (recent_prs.map
            (fun pr =>
              ((reviewsOf pr.number).filter (fun r => r.reviewer == u)).length)).sum) := by
  constructor
  · unfold reviews_done_of reviews_done_map
    have := alookup_itemsfold_getD rd.reviewsOf u (pr_ids_to_check ts rd) []
    simpa [alookup] using this
  · unfold reviews_done_report reviews_done_map_report
    have := alookup_itemsfold_getD (fun pr : PullRequest => reviewsOf pr.number) u
      recent_prs []
    simpa [alookup] using this

/-- C5 counterexample: a PR created and merged the same day appears twice in
pr_ids_to_check, so its single review is credited twice, not once as the
claim states. -/
theorem claim_c5_counterexample :
    reviews_done_of 500 exRepoC5 "bob" = 2 ∧
      reviews_done_claim 500 exRepoC5 "bob" = 1 := by decide

/-- Bumping a login makes its entry present with the updated value. -/
theorem alookup_bump_self (f : Stats → Stats) (m : List (String × Stats)) (u : String) :
    alookup (bump f m u) u = some (f ((alookup m u).getD Stats.init)) := by
  induction m with
  | nil => simp [bump, alookup]
  | cons p rest ih =>
      obtain ⟨v, s⟩ := p
      by_cases h : v = u
      · subst h; simp [bump, alookup]
      · simp [bump, alookup, h, ih]

/-- Bumping one login leaves the entry of every other login unchanged. -/
theorem alookup_bump_other (f : Stats → Stats) (m : List (String × Stats))
    (v u : String) (h : v ≠ u) :
    alookup (bump f m v) u = alookup m u := by
  induction m with
  | nil => simp [bump, alookup, h]
  | cons p rest ih =>
      obtain ⟨w, s⟩ := p
      by_cases hwv : w = v
      · subst hwv
        simp [bump, alookup, h]
      · by_cases hwu : w = u
        · subst hwu
          simp [bump, alookup, hwv]
        · simp [bump, alookup, hwv, hwu, ih]

/-- A fold of bumps at other logins leaves the entry of a login unchanged. -/
theorem alookup_fold_other {α : Type}
    (step : List (String × Stats) → α → List (String × Stats))
    (F : α → Stats → Stats) (key : α → String)
    (hstep : ∀ acc x, step acc x = bump (F x) acc (key x)) :
    ∀ (l : List α) (m : List (String × Stats)) (u : String),
      (∀ x ∈ l, key x ≠ u) → alookup (l.foldl step m) u = alookup m u := by
  intro l
  induction l with
  | nil => intro m u _; rfl
  | cons x rest ih =>
      intro m u h
      rw [List.foldl_cons, hstep,
        ih _ u (fun y hy => h y (List.mem_cons_of_mem x hy)),
        alookup_bump_other _ _ _ _ (h x (List.mem_cons_self x rest))]

/-- The key list after a bumpNat: unchanged when present, appended when new. -/
theorem keys_bumpNat (m : List (String × Nat)) (v : String) :
    (bumpNat m v).map Prod.fst
      = if v ∈ m.map Prod.fst then m.map Prod.fst else m.map Prod.fst ++ [v] := by
  induction m with
  | nil => simp [bumpNat]
  | cons p rest ih =>
      obtain ⟨x, c⟩ := p
      by_cases h : x = v
      · subst h
        simp [bumpNat]
      · have hvx : ¬v = x := fun he => h he.symm
        by_cases hv : v ∈ rest.map Prod.fst <;> simp [bumpNat, h, ih, hv, hvx]

/-- bumpNat preserves key distinctness. -/
theorem nodup_keys_bumpNat (m : List (String × Nat)) (v : String)
    (h : (m.map Prod.fst).Nodup) : ((bumpNat m v).map Prod.fst).Nodup := by
  rw [keys_bumpNat]
  by_cases hv : v ∈ m.map Prod.fst
  · simpa [hv] using h
  · simp only [hv, if_neg, if_false]
    simp [List.nodup_append, h, hv]

/-- A fold of bumpNat steps preserves key distinctness. -/
theorem nodup_keys_revsfold (rs : List Review) :
    ∀ (m : List (String × Nat)), (m.map Prod.fst).Nodup →
      ((rs.foldl (fun m2 r => bumpNat m2 r.reviewer) m).map Prod.fst).Nodup := by
  induction rs with
  | nil => intro m h; exact h
  | cons r rest ih =>
      intro m h
      rw [List.foldl_cons]
      exact ih _ (nodup_keys_bumpNat m r.reviewer h)

/-- The reviews_done_map has pairwise-distinct logins. -/
theorem nodup_keys_reviews_done_map (ts : Int) (rd : RepoData) :
    ((reviews_done_map ts rd).map Prod.fst).Nodup := by
  unfold reviews_done_map
  have key : ∀ (ids : List Nat) (m : List (String × Nat)), (m.map Prod.fst).Nodup →
      ((ids.foldl
          (fun m n => (rd.reviewsOf n).foldl (fun m2 r => bumpNat m2 r.reviewer) m)
          m).map Prod.fst).Nodup := by
    intro ids
    induction ids with
    | nil => intro m h; exact h
    | cons n rest ih =>
        intro m h
        rw [List.foldl_cons]
        exact ih _ (nodup_keys_revsfold (rd.reviewsOf n) m h)
  exact key _ [] (by simp)

/-- A successful lookup is a membership. -/
theorem alookup_mem {β : Type} (m : List (String × β)) (u : String) (c : β)
    (h : alookup m u = some c) : (u, c) ∈ m := by
  induction m with
  | nil => simp [alookup] at h
  | cons p rest ih =>
      obtain ⟨v, b⟩ := p
      by_cases hv : v = u
      · subst hv
        simp [alookup] at h
        simp [h]
      · simp [alookup, hv] at h
        exact List.mem_cons_of_mem _ (ih h)

/-- Replaying the reviews_done_map entries over a members map in which a login
is absent installs exactly the counted value of that login. -/
theorem alookup_setRD_fold :
    ∀ (l : List (String × Nat)) (m : List (String × Stats)) (u : String) (c : Nat),
      (u, c) ∈ l → (l.map Prod.fst).Nodup → alookup m u = none →
      alookup (l.foldl (fun acc uc => bump (setRD uc.2) acc uc.1) m) u
        = some (setRD c Stats.init) := by
  intro l
  induction l with
  | nil => intro m u c h; simp at h
  | cons wd rest ih =>
      intro m u c hmem hnd hm
      obtain ⟨w, d⟩ := wd
      simp only [List.map_cons, List.nodup_cons] at hnd
      rw [List.foldl_cons]
      rcases List.mem_cons.mp hmem with heq | hrest
      · injection heq with hw hd
        subst hw
        subst hd
        dsimp only
        rw [alookup_fold_other (fun acc (uc : String × Nat) => bump (setRD uc.2) acc uc.1)
          (fun (uc : String × Nat) => setRD uc.2) (fun (uc : String × Nat) => uc.1)
          (fun _ _ => rfl) rest _ u
          (fun y hy => fun hk => hnd.1 (hk ▸ List.mem_map_of_mem Prod.fst hy))]
        rw [alookup_bump_self, hm]
        rfl
      · have hw : w ≠ u := by
          intro he
          exact hnd.1 (he ▸ List.mem_map_of_mem Prod.fst hrest)
        exact ih _ u c hrest hnd.2
          (by rw [alookup_bump_other _ _ _ _ hw, hm])

/-- C10: a login that reviewed a counted PR but authored none of the counted
or classified PRs still gets a member row for the repository, with all four
authored counters zero and a positive reviews_done. -/
theorem claim_c10 (ts : Int) (rd : RepoData) (u : String)
    (h1 : 0 < reviews_done_of ts rd u)
    (h2 : ∀ pr ∈ prs_raised_today ts rd, pr.author ≠ u)
    (h3 : ∀ pr ∈ prs_merged_today ts rd, pr.author ≠ u)
    (h4 : ∀ pr ∈ prs_with_changes_requested rd, pr.author ≠ u)
    (h5 : ∀ pr ∈ prs_not_approved rd, pr.author ≠ u) :
    ∃ st ∈ member_rows_of ts rd, st.member = u ∧ st.raised = 0 ∧ st.merged = 0 ∧
      st.changes_requested = 0 ∧ st.not_approved = 0 ∧ 0 < st.reviews_done := by
  obtain ⟨c, hc, hcpos⟩ :
      ∃ c, alookup (reviews_done_map ts rd) u = some c ∧ 0 < c := by
    unfold reviews_done_of at h1
    cases hx : alookup (reviews_done_map ts rd) u with
    | none => rw [hx] at h1; simp at h1
    | some c =>
        rw [hx] at h1
        exact ⟨c, rfl, by simpa using h1⟩
  have hmem := alookup_mem _ _ _ hc
  have hnd := nodup_keys_reviews_done_map ts rd
  have hm4 : alookup
      ((prs_not_approved rd).foldl (fun m pr => bump incrNA m pr.author)
        ((prs_with_changes_requested rd).foldl (fun m pr => bump incrCR m pr.author)
          ((prs_merged_today ts rd).foldl (fun m pr => bump incrMerged m pr.author)
            ((prs_raised_today ts rd).foldl (fun m pr => bump incrRaised m pr.author)
              []))))
      u = none := by
    rw [alookup_fold_other (fun m (pr : PullRequest) => bump incrNA m pr.author)
      (fun _ => incrNA) (fun (pr : PullRequest) => pr.author) (fun _ _ => rfl) _ _ _ h5]
    rw [alookup_fold_other (fun m (pr : PullRequest) => bump incrCR m pr.author)
      (fun _ => incrCR) (fun (pr : PullRequest) => pr.author) (fun _ _ => rfl) _ _ _ h4]
    rw [alookup_fold_other (fun m (pr : PullRequest) => bump incrMerged m pr.author)
      (fun _ => incrMerged) (fun (pr : PullRequest) => pr.author) (fun _ _ => rfl) _ _ _ h3]
    rw [alookup_fold_other (fun m (pr : PullRequest) => bump incrRaised m pr.author)
      (fun _ => incrRaised) (fun (pr : PullRequest) => pr.author) (fun _ _ => rfl) _ _ _ h2]
    rfl
  have hmm : alookup (membersMap ts rd) u = some (setRD c Stats.init) := by
    simp only [membersMap]
    exact alookup_setRD_fold _ _ u c hmem hnd hm4
  have hrow : (u, setRD c Stats.init) ∈ membersMap ts rd := alookup_mem _ _ _ hmm
  refine ⟨{ member := u, raised := 0, merged := 0, changes_requested := 0,
            not_approved := 0, reviews_done := c, repoName := rd.repoName },
    ?_, rfl, rfl, rfl, rfl, rfl, hcpos⟩
  unfold member_rows_of
  exact List.mem_map.mpr ⟨(u, setRD c Stats.init), hrow, rfl⟩

/-- C10 instantiated: bob reviewed the same-day PR of alice, authored nothing, and
gets a zero-counter row with positive reviews_done. -/
theorem claim_c10_witness :
    (0 < reviews_done_of 500 exRepoC5 "bob") ∧
      ∃ st ∈ member_rows_of 500 exRepoC5, st.member = "bob" ∧ st.raised = 0 ∧
        st.merged = 0 ∧ st.changes_requested = 0 ∧ st.not_approved = 0 ∧
        0 < st.reviews_done :=
  ⟨by decide,
    claim_c10 500 exRepoC5 "bob" (by decide) (by decide) (by decide) (by decide)
      (by decide)⟩
/-- Membership in a python-set insertion. -/
theorem mem_insertIfAbsent (l : List String) (v u : String) :
    u ∈ insertIfAbsent l v ↔ u ∈ l ∨ u = v := by
  unfold insertIfAbsent
  by_cases h : v ∈ l
  · simp only [h, if_true]
    constructor
    · exact Or.inl
    · rintro (hu | hu)
      · exact hu
      · exact hu ▸ h
  · simp [h]

/-- Python-set insertion preserves distinctness. -/
theorem nodup_insertIfAbsent (l : List String) (v : String) (h : l.Nodup) :
    (insertIfAbsent l v).Nodup := by
  unfold insertIfAbsent
  by_cases hv : v ∈ l
  · simpa [hv] using h
  · simp [hv, List.nodup_append, h]

/-- Membership after the per-repository stale-owner accumulation loop. -/
theorem stale_inner_mem (now : Int) (prs : List PullRequest) :
    ∀ (acc : List String) (u : String),
      u ∈ prs.foldl
            (fun a pr =>
              if 604800 < now - pr.created_at then insertIfAbsent a pr.author else a)
            acc
        ↔ u ∈ acc ∨ ∃ pr ∈ prs, 604800 < now - pr.created_at ∧ pr.author = u := by
  induction prs with
  | nil => intro acc u; simp
  | cons pr rest ih =>
      intro acc u
      rw [List.foldl_cons]
      by_cases h : 604800 < now - pr.created_at
      · rw [if_pos h]
        rw [ih]
        rw [mem_insertIfAbsent]
        constructor
        · rintro ((hu | hu) | hu)
          · exact Or.inl hu
          · exact Or.inr ⟨pr, List.mem_cons_self pr rest, h, hu.symm⟩
          · obtain ⟨q, hq, hq2, hq3⟩ := hu
            exact Or.inr ⟨q, List.mem_cons_of_mem pr hq, hq2, hq3⟩
        · rintro (hu | ⟨q, hq, hq2, hq3⟩)
          · exact Or.inl (Or.inl hu)
          · rcases List.mem_cons.mp hq with rfl | hq4
            · exact Or.inl (Or.inr hq3.symm)
            · exact Or.inr ⟨q, hq4, hq2, hq3⟩
      · rw [if_neg h]
        rw [ih]
        constructor
        · rintro (hu | ⟨q, hq, hq2, hq3⟩)
          · exact Or.inl hu
          · exact Or.inr ⟨q, List.mem_cons_of_mem pr hq, hq2, hq3⟩
        · rintro (hu | ⟨q, hq, hq2, hq3⟩)
          · exact Or.inl hu
          · rcases List.mem_cons.mp hq with rfl | hq4
            · exact absurd hq2 h
            · exact Or.inr ⟨q, hq4, hq2, hq3⟩

/-- The per-repository stale-owner loop preserves distinctness. -/
theorem stale_inner_nodup (now : Int) (prs : List PullRequest) :
    ∀ (acc : List String), acc.Nodup →
      (prs.foldl
        (fun a pr =>
          if 604800 < now - pr.created_at then insertIfAbsent a pr.author else a)
        acc).Nodup := by
  induction prs with
  | nil => intro acc h; exact h
  | cons pr rest ih =>
      intro acc h
      rw [List.foldl_cons]
      by_cases hc : 604800 < now - pr.created_at
      · rw [if_pos hc]
        exact ih _ (nodup_insertIfAbsent acc pr.author h)
      · rw [if_neg hc]
        exact ih _ h

/-- The accumulated stale set holds exactly the spec-side stale authors. -/
theorem mem_stale_set (now : Int) (repos : List (Option RepoData)) (u : String) :
    u ∈ stale_set now repos ↔ u ∈ stale_authors_spec now repos := by
  unfold stale_set
  have key : ∀ (rl : List (Option RepoData)) (acc : List String),
      u ∈ rl.foldl
            (fun acc o =>
              match o with
              | none => acc
              | some rd =>
                  rd.openPRs.foldl
                    (fun a pr =>
                      if 604800 < now - pr.created_at then insertIfAbsent a pr.author
                      else a)
                    acc)
            acc
        ↔ u ∈ acc ∨ u ∈ stale_authors_spec now rl := by
    intro rl
    induction rl with
    | nil => intro acc; simp [stale_authors_spec]
    | cons o rest ih =>
        intro acc
        rw [List.foldl_cons]
        cases o with
        | none =>
            rw [ih]
            simp [stale_authors_spec, List.filterMap_cons]
        | some rd =>
            rw [ih, stale_inner_mem]
            simp only [stale_authors_spec, List.filterMap_cons, id_eq,
              List.flatMap_cons, List.mem_append, List.mem_flatMap, List.mem_map,
              List.mem_filter, decide_eq_true_eq, and_assoc, or_assoc]
  rw [key repos []]
  simp

/-- The accumulated stale set is duplicate-free. -/
theorem nodup_stale_set (now : Int) (repos : List (Option RepoData)) :
    (stale_set now repos).Nodup := by
  unfold stale_set
  have key : ∀ (rl : List (Option RepoData)) (acc : List String), acc.Nodup →
      (rl.foldl
        (fun acc o =>
          match o with
          | none => acc
          | some rd =>
              rd.openPRs.foldl
                (fun a pr =>
                  if 604800 < now - pr.created_at then insertIfAbsent a pr.author
                  else a)
                acc)
        acc).Nodup := by
    intro rl
    induction rl with
    | nil => intro acc h; exact h
    | cons o rest ih =>
        intro acc h
        rw [List.foldl_cons]
        cases o with
        | none => exact ih acc h
        | some rd => exact ih _ (stale_inner_nodup now rd.openPRs acc h)
  exact key repos [] (by simp)

/-- Sorting is invariant across permutations of string lists. -/
theorem sortStrings_eq_of_perm (l1 l2 : List String) (h : l1.Perm l2) :
    sortStrings l1 = sortStrings l2 :=
  List.eq_of_perm_of_sorted
    (((List.perm_insertionSort _ l1).trans h).trans (List.perm_insertionSort _ l2).symm)
    (List.sorted_insertionSort _ l1) (List.sorted_insertionSort _ l2)

/-- C9: the two-pass stale_pr_owners string of the run equals the spec-side
sorted, de-duplicated, comma-joined stale authors over the successfully
fetched repositories, with the dash sentinel when there are none. -/
theorem claim_c9 (now : Int) (repos : List (Option RepoData)) :
    owners_stale_prs now repos = stale_owners_spec now repos := by
  unfold owners_stale_prs stale_owners_spec
  have hperm : (stale_set now repos).Perm (stale_authors_spec now repos).dedup :=
    (List.perm_ext_iff_of_nodup (nodup_stale_set now repos)
        (List.nodup_dedup _)).2
      (fun a => by rw [List.mem_dedup]; exact mem_stale_set now repos a)
  have hempty : (stale_set now repos).isEmpty
      = ((stale_authors_spec now repos).dedup).isEmpty := by
    have hlen := hperm.length_eq
    cases hs : stale_set now repos with
    | nil =>
        have h2 : (stale_authors_spec now repos).dedup = [] := by
          rw [hs] at hlen
          exact List.length_eq_zero.mp hlen.symm
        rw [h2]
    | cons a t =>
        rw [hs] at hlen
        cases hd : (stale_authors_spec now repos).dedup with
        | nil => rw [hd] at hlen; simp at hlen
        | cons b s => rfl
  by_cases he : (stale_set now repos).isEmpty = true
  · have he2 : ((stale_authors_spec now repos).dedup).isEmpty = true := by
      rw [← hempty]; exact he
    rw [if_pos he, if_pos he2]
  · have he2 : ¬((stale_authors_spec now repos).dedup).isEmpty = true := by
      rw [← hempty]; exact he
    rw [if_neg he, if_neg he2, sortStrings_eq_of_perm _ _ hperm]
